import Mathlib

/-!
Verification of the ADMS attendance server core (`src/index.js`).

The JavaScript source is shallowly embedded: strings are Lean `String`s
(worked on through their `List Char` data), instants are epoch
milliseconds (`Int`), the SQLite tables are Lean lists, and the
"host timezone" of the Node process is an explicit fixed UTC-offset
parameter `tz` in milliseconds (JS `new Date("YYYY-MM-DDTHH:MM:SS")`
interprets a timezone-less date-time string in the host's local zone,
while `new Date("YYYY-MM-DD")` parses a date-only string as UTC
midnight; `Date.prototype.setHours` works in local time).
Timestamps stored by the program are `toISOString` renderings; the
lexicographic order of those fixed-width strings agrees with the order
of the underlying epoch instants, so range queries on the `ts` column
are modelled by integer comparisons on epoch milliseconds.
-/

namespace Adms

/-! ## JavaScript string primitives -/

/-- Whitespace as matched by JS `\s` / removed by `String.prototype.trim`
(restricted to the ASCII whitespace that can actually occur here). -/
def jsIsWs (c : Char) : Bool :=
  c = ' ' || c = '\t' || c = '\n' || c = '\r' || c = '\x0b' || c = '\x0c'

/-- `String.prototype.trim` on the character list. -/
def jsTrimCs (cs : List Char) : List Char :=
  ((cs.dropWhile jsIsWs).reverse.dropWhile jsIsWs).reverse

/-- `String.prototype.trim`. -/
def jsTrim (s : String) : String :=
  String.mk (jsTrimCs s.data)

/-- `String.prototype.split(sep)` for a single-character separator
(the JS behaviour: `"".split` gives `[""]`, separators at the ends give
empty fields). -/
def splitOnCharGo (sep : Char) (cur : List Char) : List Char → List (List Char)
  | [] => [cur.reverse]
  | c :: rest =>
    if c = sep then cur.reverse :: splitOnCharGo sep [] rest
    else splitOnCharGo sep (c :: cur) rest

/-- `line.split('\t')`. -/
def splitTab (s : String) : List String :=
  (splitOnCharGo '\t' [] s.data).map String.mk

/-- `line.split(/\s+/)`: split on maximal runs of whitespace.  The flag
records whether the previous character was part of a whitespace run. -/
def splitWsGo (inWs : Bool) (cur : List Char) : List Char → List (List Char)
  | [] => [cur.reverse]
  | c :: rest =>
    if jsIsWs c then
      if inWs then splitWsGo true cur rest
      else cur.reverse :: splitWsGo true [] rest
    else splitWsGo false (c :: cur) rest

/-- `line.split(/\s+/)`. -/
def splitWsRuns (s : String) : List String :=
  (splitWsGo false [] s.data).map String.mk

/-- `text.replace(/\r/g, '\n').split('\n')`: the line splitter used by
both ingestion paths. -/
def splitLines (text : String) : List String :=
  (splitOnCharGo '\n' [] (text.data.map fun c => if c = '\r' then '\n' else c)).map String.mk

/-- `s.replace(/\//g, '-')`. -/
def slashesToDashes (s : String) : String :=
  String.mk (s.data.map fun c => if c = '/' then '-' else c)

/-! ## Calendar arithmetic (proleptic Gregorian, as used by JS `Date`) -/

/-- Gregorian leap year. -/
def isLeap (y : Int) : Bool :=
  (y.emod 4 = 0 && y.emod 100 ≠ 0) || y.emod 400 = 0

/-- Number of days in a month. -/
def daysInMonth (y : Int) (m : Nat) : Nat :=
  if m = 1 || m = 3 || m = 5 || m = 7 || m = 8 || m = 10 || m = 12 then 31
  else if m = 4 || m = 6 || m = 9 || m = 11 then 30
  else if m = 2 then (if isLeap y then 29 else 28)
  else 0

/-- Days from the civil date `y-m-d` to 1970-01-01 (Howard Hinnant's
`days_from_civil`, valid for every integer year). -/
def daysFromCivil (y : Int) (m d : Nat) : Int :=
  let y' : Int := if m ≤ 2 then y - 1 else y
  let era : Int := y'.fdiv 400
  let yoe : Int := y' - era * 400
  let mp : Int := if m > 2 then (m : Int) - 3 else (m : Int) + 9
  let doy : Int := (153 * mp + 2).fdiv 5 + (d : Int) - 1
  let doe : Int := yoe * 365 + yoe.fdiv 4 - yoe.fdiv 100 + doy
  era * 146097 + doe - 719468

/-- Civil date from days since 1970-01-01 (Hinnant's `civil_from_days`). -/
def civilFromDays (z : Int) : Int × Nat × Nat :=
  let z' := z + 719468
  let era : Int := z'.fdiv 146097
  let doe : Int := z' - era * 146097
  let yoe : Int := (doe - doe.fdiv 1460 + doe.fdiv 36524 - doe.fdiv 146096).fdiv 365
  let y : Int := yoe + era * 400
  let doy : Int := doe - (365 * yoe + yoe.fdiv 4 - yoe.fdiv 100)
  let mp : Int := (5 * doy + 2).fdiv 153
  let d : Int := doy - (153 * mp + 2).fdiv 5 + 1
  let m : Int := if mp < 10 then mp + 3 else mp - 9
  (if m ≤ 2 then y + 1 else y, m.toNat, d.toNat)

/-- Epoch milliseconds of the UTC instant `y-mo-d h:mi:s` (hour 24 rolls
over to the next day, as in the ES date-time string format). -/
def epochMsOfCivil (y mo d h mi s : Nat) : Int :=
  daysFromCivil (y : Int) mo d * 86400000
    + (h : Int) * 3600000 + (mi : Int) * 60000 + (s : Int) * 1000

/-- Validity of a `YYYY-MM-DDTHH:MM:SS` string under the ES date-time
string format: real calendar date, and either an ordinary time of day or
exactly `24:00:00`.  `new Date` yields an invalid date (`NaN`) otherwise. -/
def jsDateTimeValid (y mo d h mi s : Nat) : Bool :=
  1 ≤ mo && mo ≤ 12 && 1 ≤ d && d ≤ daysInMonth (y : Int) mo &&
    ((h ≤ 23 && mi ≤ 59 && s ≤ 59) || (h = 24 && mi = 0 && s = 0))

/-- Left-pad a decimal rendering with zeros. -/
def padZeros (w : Nat) (n : Nat) : String :=
  let s := toString n
  String.mk (List.replicate (w - s.length) '0') ++ s

/-- Year field of `Date.prototype.toISOString` (expanded-year form with a
sign outside 0000–9999). -/
def isoYear (y : Int) : String :=
  if 0 ≤ y && y ≤ 9999 then padZeros 4 y.toNat
  else if y > 9999 then "+" ++ padZeros 6 y.toNat
  else "-" ++ padZeros 6 (-y).toNat

/-- `Date.prototype.toISOString` on an epoch-milliseconds time value. -/
def toISOString (t : Int) : String :=
  let days := t.fdiv 86400000
  let msOfDay := (t.fmod 86400000).toNat
  let c := civilFromDays days
  let h := msOfDay / 3600000
  let mi := msOfDay % 3600000 / 60000
  let s := msOfDay % 60000 / 1000
  let ms := msOfDay % 1000
  isoYear c.1 ++ "-" ++ padZeros 2 c.2.1 ++ "-" ++ padZeros 2 c.2.2 ++ "T"
    ++ padZeros 2 h ++ ":" ++ padZeros 2 mi ++ ":" ++ padZeros 2 s
    ++ "." ++ padZeros 3 ms ++ "Z"

/-! ## The strict ATTLOG parser (`parseAttlogText`) -/

/-- Digit value of an ASCII digit character. -/
def d2n (c : Char) : Nat := c.toNat - 48

/-- One of the two accepted timestamp regexes
`/^(\d{4})S(\d{2})S(\d{2}) (\d{2}):(\d{2}):(\d{2})$/` with date
separator `sep` (`'-'` or `'/'`); on a match, returns the six captured
groups as numbers. -/
def matchTsFmt (sep : Char) : List Char → Option (Nat × Nat × Nat × Nat × Nat × Nat)
  | [y1, y2, y3, y4, a, m1, m2, b, d1, d2, sp, h1, h2, c1, i1, i2, c2, s1, s2] =>
    if y1.isDigit && y2.isDigit && y3.isDigit && y4.isDigit &&
       m1.isDigit && m2.isDigit && d1.isDigit && d2.isDigit &&
       h1.isDigit && h2.isDigit && i1.isDigit && i2.isDigit &&
       s1.isDigit && s2.isDigit &&
       a = sep && b = sep && sp = ' ' && c1 = ':' && c2 = ':' then
      some (d2n y1 * 1000 + d2n y2 * 100 + d2n y3 * 10 + d2n y4,
            d2n m1 * 10 + d2n m2, d2n d1 * 10 + d2n d2,
            d2n h1 * 10 + d2n h2, d2n i1 * 10 + d2n i2, d2n s1 * 10 + d2n s2)
    else none
  | _ => none

/-- The `for (const fmt of formats)` loop: dash format first, slash
format second. -/
def matchTsStr (s : String) : Option (Nat × Nat × Nat × Nat × Nat × Nat) :=
  match matchTsFmt '-' s.data with
  | some r => some r
  | none => matchTsFmt '/' s.data

/-- Tokenization of one (already trimmed) line: split on tabs, and if
that yields fewer than two tokens, re-split on whitespace runs. -/
def tokensOf (line : String) : List String :=
  let parts := splitTab line
  if parts.length < 2 then splitWsRuns line else parts

/-- A parsed ATTLOG row as pushed by `parseAttlogText` (the `ts` field
holds the `toISOString` rendering that is inserted into the `punch`
table). -/
structure AttParsedRow where
  pin : String
  ts : String
  status : Option String
  verify : Option String
  workcode : Option String
  reserved : Option String
  raw : String
deriving DecidableEq

/-- `parts[i] || null`: an absent or empty token becomes `null`. -/
def optTok (l : List String) (i : Nat) : Option String :=
  match l.get? i with
  | some "" => none
  | some s => some s
  | none => none

/-- The body of `parseAttlogText`'s per-line loop.  `tz` is the host
timezone offset in milliseconds (local = UTC + `tz`): the code builds
`new Date("YYYY-MM-DDTHH:MM:SS")`, which JS interprets as *local*
wall-clock time, so the resulting time value is the UTC interpretation
shifted by `-tz`.  Returns `none` when the line is dropped. -/
def parseAttlogLine (tz : Int) (rawLine : String) : Option AttParsedRow :=
  let line := jsTrim rawLine
  if line = "" then none
  else
    match tokensOf line with
    | pin :: tsStr :: rest =>
      match matchTsStr tsStr with
      | none => none
      | some (y, mo, d, h, mi, s) =>
        if jsDateTimeValid y mo d h mi s then
          some { pin := pin
                 ts := toISOString (epochMsOfCivil y mo d h mi s - tz)
                 status := optTok rest 0
                 verify := optTok rest 1
                 workcode := optTok rest 2
                 reserved := optTok rest 3
                 raw := line }
        else none
    | _ => none

/-- `parseAttlogText(text)`: split into lines and keep the rows the
per-line loop produces.  Dropped lines contribute nothing; the parser
has no error channel. -/
def parseAttlogText (tz : Int) (text : String) : List AttParsedRow :=
  (splitLines text).filterMap (parseAttlogLine tz)

/-! ## The fallback (non-ATTLOG) ingestion path

The `POST /iclock/cdata.aspx` handler, when the declared table is not
ATTLOG, runs an inline per-line loop: tab-only split, `parts[0] ||
'UNKNOWN'` as pin, and `new Date(parts[1].replace(/\//g,'-'))` as a
best-effort timestamp, falling back to the ingestion instant `now`.
JS `new Date(string)` on an arbitrary string is engine best-effort
parsing; it is modelled by an oracle `pd : String → Option Int`
(`none` = invalid date, i.e. `isNaN(parsedDate.getTime())`). -/

/-- A punch row as inserted by the fallback path (`status`, `verify`,
`workcode`, `reserved` are all `null` there; `ts` is the epoch instant
whose `toISOString` rendering is inserted). -/
structure FallbackRow where
  pin : String
  ts : Int
  raw : String
deriving DecidableEq

/-- The body of the fallback per-line loop. `none` = blank line skipped. -/
def parseFallbackLine (pd : String → Option Int) (now : Int) (rawLine : String) :
    Option FallbackRow :=
  let line := jsTrim rawLine
  if line = "" then none
  else
    let parts := splitTab line
    let pin := match parts.head? with
      | some "" => "UNKNOWN"
      | some t => t
      | none => "UNKNOWN"
    let ts := match parts.get? 1 with
      | some t =>
        match pd (slashesToDashes t) with
        | some v => v
        | none => now
      | none => now
    some { pin := pin, ts := ts, raw := line }

/-- The whole fallback loop over a payload. -/
def parseFallbackText (pd : String → Option Int) (now : Int) (text : String) :
    List FallbackRow :=
  (splitLines text).filterMap (parseFallbackLine pd now)

/-- Modelled from the spec: the spec's description of the fallback pin
("token 0 of a tab-only split, defaulting to the sentinel `UNKNOWN` if
absent"), to be compared with the fallback loop translated from the
source. -/
def specFallbackPin (line : String) : String :=
  match splitTab (jsTrim line) with
  | [] => "UNKNOWN"
  | t :: _ => if t = "" then "UNKNOWN" else t

/-- Modelled from the spec: the spec's description of the fallback
timestamp ("token 1, if present, parsed as a best-effort date with slash
separators normalized to dashes; on parse failure the ingestion instant
is substituted"). -/
def specFallbackTs (pd : String → Option Int) (now : Int) (line : String) : Int :=
  match (splitTab (jsTrim line)).get? 1 with
  | none => now
  | some t => (pd (slashesToDashes t)).getD now

/-! ## The attendance aggregator (`computeAttendanceForDay`) -/

/-- A calendar date, as carried by the `day` string `"YYYY-MM-DD"`. -/
structure CivilDay where
  year : Nat
  month : Nat
  day : Nat
deriving DecidableEq

/-- A row of the `punch` table (only the columns the aggregator reads:
`pin` and the instant behind the stored `ts` string). -/
structure PunchRow where
  pin : String
  ts : Int
deriving DecidableEq

/-- A row of the `attendance` table (without the bookkeeping
`created_at`, which the aggregator never writes on update). -/
structure AttRowStored where
  pin : String
  day : CivilDay
  firstTs : Int
  lastTs : Int
  durationMinutes : Int
  status : String
  updatedAt : Int
deriving DecidableEq

/-- The object `attendanceData` returned per identity. -/
structure AttData where
  pin : String
  day : CivilDay
  firstTs : Int
  lastTs : Int
  durationMinutes : Int
  status : String
deriving DecidableEq

/-- The database state the aggregator touches. -/
structure DB where
  punches : List PunchRow
  attendance : List AttRowStored
deriving DecidableEq

/-- `new Date(dayStr)`: a date-only ISO string parses as UTC midnight. -/
def dayUtcMs (day : CivilDay) : Int :=
  86400000 * daysFromCivil (day.year : Int) day.month day.day

/-- The query bounds computed by
`new Date(dayDate.setHours(0,0,0,0))` / `setHours(23,59,59,999)`:
`setHours` works in host-local time (offset `tz`), so the bounds are the
local calendar day containing the instant `day 00:00Z`. -/
def dayRange (tz : Int) (day : CivilDay) : Int × Int :=
  let base := dayUtcMs day
  let localMidnight := 86400000 * ((base + tz).fdiv 86400000)
  (localMidnight - tz, localMidnight - tz + 86399999)

/-- `SELECT ... FROM punch WHERE ts >= ? AND ts <= ?` (inclusive both
ends; ISO-string comparison agrees with the instant order). -/
def punchesInRange (punches : List PunchRow) (s e : Int) : List PunchRow :=
  punches.filter fun p => decide (s ≤ p.ts ∧ p.ts ≤ e)

/-- The rows matching `pin = ? AND ts >= ? AND ts <= ?`. -/
def perPinPool (punches : List PunchRow) (pin : String) (s e : Int) : List PunchRow :=
  punches.filter fun p => decide (p.pin = pin ∧ s ≤ p.ts ∧ p.ts ≤ e)

/-- Order on punches used by `ORDER BY ts ASC`. -/
def punchTsLe (a b : PunchRow) : Prop := a.ts ≤ b.ts

instance : DecidableRel punchTsLe := fun a b => inferInstanceAs (Decidable (a.ts ≤ b.ts))

instance : IsTotal PunchRow punchTsLe := ⟨fun a b => Int.le_total a.ts b.ts⟩

instance : IsTrans PunchRow punchTsLe := ⟨fun _ _ _ h h' => Int.le_trans h h'⟩

/-- `SELECT * FROM punch WHERE pin = ? AND ts >= ? AND ts <= ? ORDER BY ts ASC`. -/
def queryPinDay (punches : List PunchRow) (pin : String) (s e : Int) : List PunchRow :=
  List.insertionSort punchTsLe (perPinPool punches pin s e)

/-- Last element of a (non-empty, presented as head plus tail) list:
`punches[punches.length - 1]`. -/
def lastOf (a : PunchRow) : List PunchRow → PunchRow
  | [] => a
  | b :: bs => lastOf b bs

/-- The per-identity computation: first/last punch, floored duration in
minutes, and the `PRESENT`/`SHORT`/`ABSENT` classification against the
`MINUTES_FOR_PRESENT` threshold `thr` (default 360). `none` when the
queried punch list is empty (`if punches.length === 0 continue`). -/
def attDataForPin (thr : Int) (day : CivilDay) (sorted : List PunchRow) (pin : String) :
    Option AttData :=
  match sorted with
  | [] => none
  | first :: rest =>
    let lastTs := (lastOf first rest).ts
    let dur := (lastTs - first.ts).fdiv 60000
    let st := if thr ≤ dur then "PRESENT" else if 0 < dur then "SHORT" else "ABSENT"
    some { pin := pin, day := day, firstTs := first.ts, lastTs := lastTs,
           durationMinutes := dur, status := st }

/-- The stored row corresponding to an `attendanceData` object with
`updated_at` = `nw`. -/
def mkAttRow (d : AttData) (nw : Int) : AttRowStored :=
  { pin := d.pin, day := d.day, firstTs := d.firstTs, lastTs := d.lastTs,
    durationMinutes := d.durationMinutes, status := d.status, updatedAt := nw }

/-- The upsert: if rows with the `(pin, day)` key exist, `UPDATE` all of
them in place (refreshing `updated_at`), else `INSERT`. -/
def upsertAtt (d : AttData) (nw : Int) (att : List AttRowStored) : List AttRowStored :=
  if att.any (fun r => decide (r.pin = d.pin ∧ r.day = d.day)) then
    att.map fun r =>
      if r.pin = d.pin ∧ r.day = d.day then
        { r with firstTs := d.firstTs, lastTs := d.lastTs,
                 durationMinutes := d.durationMinutes, status := d.status,
                 updatedAt := nw }
      else r
  else att ++ [mkAttRow d nw]

/-- The `for (const pin of pins)` loop, threading the attendance table
and collecting the `results` list in order. -/
def computeLoop (thr : Int) (day : CivilDay) (punches : List PunchRow) (s e nw : Int) :
    List String → List AttRowStored → List AttRowStored × List AttData
  | [], att => (att, [])
  | pin :: ps, att =>
    match attDataForPin thr day (queryPinDay punches pin s e) pin with
    | none => computeLoop thr day punches s e nw ps att
    | some d =>
      let att' := upsertAtt d nw att
      let r := computeLoop thr day punches s e nw ps att'
      (r.1, d :: r.2)

/-- `computeAttendanceForDay(dayStr)`.  `thr` = `MINUTES_FOR_PRESENT`,
`tz` = host timezone offset, `nw` = the `CURRENT_TIMESTAMP` used for
`updated_at`.  Punch rows are never modified. -/
def computeAttendanceForDay (thr tz nw : Int) (day : CivilDay) (db : DB) :
    List AttData × DB :=
  let se := dayRange tz day
  let pins := ((punchesInRange db.punches se.1 se.2).map PunchRow.pin).dedup
  let r := computeLoop thr day db.punches se.1 se.2 nw pins db.attendance
  (r.2, { punches := db.punches, attendance := r.1 })

/-- The punches the aggregation run reads: for every distinct pin seen
in the day range, the rows of that pin's ordered range query. -/
def queriedPunches (tz : Int) (day : CivilDay) (punches : List PunchRow) : List PunchRow :=
  let se := dayRange tz day
  (((punchesInRange punches se.1 se.2).map PunchRow.pin).dedup).flatMap
    fun pin => queryPinDay punches pin se.1 se.2

/-- At most one attendance row per `(pin, day)` key. -/
def attKeysNodup (att : List AttRowStored) : Prop :=
  (att.map fun r => (r.pin, r.day)).Nodup

/-! ## Device liveness (`/iclock/getrequest.aspx` and the monitor) -/

/-- A `deviceCache` entry (`status` is the string `'ONLINE'`/`'OFFLINE'`;
`lastSeen`/`lastHeartbeat` are `Date` objects or `null`). -/
structure DeviceInfo where
  status : String
  lastSeen : Option Int
  lastHeartbeat : Option Int
deriving DecidableEq

/-- A persistence write issued against the `devices` table. -/
inductive DevWrite
  | insertDevice (sn : String) (lastSeen : Int)
  | updateStatusOnline (sn : String) (lastSeen : Int)
  | updateLastSeen (sn : String) (lastSeen : Int)
  | updateStatusOffline (sn : String)
deriving DecidableEq

/-- An HTTP response (status code and body). -/
structure Response where
  statusCode : Nat
  body : String
deriving DecidableEq

/-- `deviceCache.get`. -/
def cacheGet (sn : String) : List (String × DeviceInfo) → Option DeviceInfo
  | [] => none
  | (k, v) :: rest => if k = sn then some v else cacheGet sn rest

/-- `deviceCache.set` (replace in place, or add). -/
def cacheSet (sn : String) (info : DeviceInfo) :
    List (String × DeviceInfo) → List (String × DeviceInfo)
  | [] => [(sn, info)]
  | (k, v) :: rest =>
    if k = sn then (k, info) :: rest else (k, v) :: cacheSet sn info rest

/-- The row shape read back by `SELECT ... FROM devices WHERE serial_number = ?`. -/
structure DevRow where
  serial : String
  status : String
  lastSeen : Option Int
deriving DecidableEq

/-- Outcomes of the awaited database calls inside the heartbeat handler:
the lookup may throw (`Except.error`), and the awaited insert/update may
fail.  A thrown awaited call lands in the route's `catch`. -/
structure HbDb where
  find : Except Unit (Option DevRow)
  insertOk : Bool
  updateOk : Bool

/-- The cached-device branch of the heartbeat handler: unconditionally
refresh `lastHeartbeat`; flip `OFFLINE → ONLINE` with a fire-and-forget
status write; independently, debounce the `lastSeen`-only write to at
most one per 10 s.  Fire-and-forget writes have a `.catch` and never
propagate. -/
def onHeartbeatCached (sn : String) (now : Int) (info : DeviceInfo) :
    DeviceInfo × List DevWrite :=
  let info1 := { info with lastHeartbeat := some now }
  let p2 :=
    if info1.status = "OFFLINE" then
      ({ info1 with status := "ONLINE" }, [DevWrite.updateStatusOnline sn now])
    else (info1, ([] : List DevWrite))
  let p3 :=
    match p2.1.lastSeen with
    | none => ({ p2.1 with lastSeen := some now }, [DevWrite.updateLastSeen sn now])
    | some s =>
      if now - s > 10000 then
        ({ p2.1 with lastSeen := some now }, [DevWrite.updateLastSeen sn now])
      else (p2.1, [])
  (p3.1, p2.2 ++ p3.2)

/-- `GET /iclock/getrequest.aspx`.  Returns the response, the new cache,
and the successful persistence writes.  The whole body is inside
`try { ... } catch { res.send('OK') }`, so a throwing awaited call still
answers `200 OK`; a missing or empty `SN` answers `res.status(400).send('OK')`. -/
def getrequestHandler (sn? : Option String) (now : Int) (db : HbDb)
    (cache : List (String × DeviceInfo)) :
    Response × List (String × DeviceInfo) × List DevWrite :=
  match sn? with
  | none => (⟨400, "OK"⟩, cache, [])
  | some sn =>
    if sn = "" then (⟨400, "OK"⟩, cache, [])
    else
      match cacheGet sn cache with
      | none =>
        match db.find with
        | .error _ => (⟨200, "OK"⟩, cache, [])
        | .ok none =>
          if db.insertOk then
            (⟨200, "OK"⟩, cacheSet sn ⟨"ONLINE", some now, some now⟩ cache,
              [DevWrite.insertDevice sn now])
          else (⟨200, "OK"⟩, cache, [])
        | .ok (some _) =>
          if db.updateOk then
            (⟨200, "OK"⟩, cacheSet sn ⟨"ONLINE", some now, some now⟩ cache,
              [DevWrite.updateStatusOnline sn now])
          else (⟨200, "OK"⟩, cache, [])
      | some info =>
        let r := onHeartbeatCached sn now info
        (⟨200, "OK"⟩, cacheSet sn r.1 cache, r.2)

/-- One cache entry's treatment by the periodic monitor sweep: entries
with a heartbeat older than `DEVICE_OFFLINE_THRESHOLD` (30000 ms) and
cached status `ONLINE` are flipped to `OFFLINE` and batched for a
persistence write. -/
def sweepEntry (now : Int) (info : DeviceInfo) : DeviceInfo × Bool :=
  match info.lastHeartbeat with
  | none => (info, false)
  | some hb =>
    if now - hb > 30000 ∧ info.status = "ONLINE" then
      ({ info with status := "OFFLINE" }, true)
    else (info, false)

/-- One run of the `setInterval` body in `startDeviceMonitor`: scan the
whole cache, then one independent `OFFLINE` update per batched serial. -/
def deviceMonitorSweep (now : Int) :
    List (String × DeviceInfo) → List (String × DeviceInfo) × List String
  | [] => ([], [])
  | (sn, info) :: rest =>
    let e := sweepEntry now info
    let r := deviceMonitorSweep now rest
    ((sn, e.1) :: r.1, if e.2 then sn :: r.2 else r.2)

/-- Successive heartbeats for a device that stays in the cache (no sweep
interleaved), collecting all persistence writes. -/
def runHeartbeats (sn : String) : List Int → DeviceInfo → DeviceInfo × List DevWrite
  | [], info => (info, [])
  | t :: ts, info =>
    let r1 := onHeartbeatCached sn t info
    let r2 := runHeartbeats sn ts r1.1
    (r2.1, r1.2 ++ r2.2)

/-- Does a write touch the stored `last_seen` column? (Both the
`lastSeen`-only debounce write and the `OFFLINE → ONLINE` status write
set `last_seen`.) -/
def touchesLastSeen : DevWrite → Bool
  | .updateLastSeen _ _ => true
  | .updateStatusOnline _ _ => true
  | .insertDevice _ _ => false
  | .updateStatusOffline _ => false

/-- Is a write the `lastSeen`-only debounce write? -/
def isLastSeenWrite : DevWrite → Bool
  | .updateLastSeen _ _ => true
  | _ => false

/-! ## Helper lemmas -/

theorem tokensOf_blank : tokensOf "" = [""] := by decide

theorem dropWhile_head_false {p : Char → Bool} {cs : List Char} {c : Char}
    {rest : List Char} (h : cs.dropWhile p = c :: rest) : p c = false := by
  induction cs with
  | nil => simp at h
  | cons a as ih =>
    rw [List.dropWhile_cons] at h
    by_cases hp : p a = true
    · exact ih (by simpa [hp] using h)
    · simp [hp] at h
      obtain ⟨h1, _⟩ := h
      subst h1
      simpa using hp

theorem dropWhile_append_singleton {p : Char → Bool} (l : List Char) (a : Char)
    (h : p a = false) : (l ++ [a]).dropWhile p = l.dropWhile p ++ [a] := by
  induction l with
  | nil => simp [List.dropWhile_cons, h]
  | cons c cs ih =>
    by_cases hc : p c = true
    · simp [List.dropWhile_cons, hc, ih]
    · simp [List.dropWhile_cons, hc]

/-- A non-blank trimmed line starts with a non-whitespace character. -/
theorem jsTrim_head (l : String) (h : jsTrim l ≠ "") :
    ∃ c cs, (jsTrim l).data = c :: cs ∧ jsIsWs c = false := by
  have hd : (jsTrim l).data = jsTrimCs l.data := rfl
  rcases hA : l.data.dropWhile jsIsWs with _ | ⟨a, as⟩
  · exfalso
    apply h
    have : jsTrimCs l.data = [] := by
      unfold jsTrimCs
      rw [hA]
      simp
    apply String.ext
    rw [hd, this]
  · have ha : jsIsWs a = false := dropWhile_head_false hA
    refine ⟨a, ((as.reverse.dropWhile jsIsWs).reverse), ?_, ha⟩
    rw [hd]
    unfold jsTrimCs
    rw [hA]
    have : (a :: as).reverse = as.reverse ++ [a] := by simp
    rw [this, dropWhile_append_singleton _ _ ha]
    simp

/-- The first field produced by `splitOnCharGo` extends the pending
accumulator. -/
theorem splitOnCharGo_head (sep : Char) :
    ∀ (cs cur : List Char), ∃ tok rest,
      splitOnCharGo sep cur cs = (cur.reverse ++ tok) :: rest := by
  intro cs
  induction cs with
  | nil => intro cur; exact ⟨[], [], by simp [splitOnCharGo]⟩
  | cons c cs ih =>
    intro cur
    by_cases hc : c = sep
    · exact ⟨[], splitOnCharGo sep [] cs, by simp [splitOnCharGo, hc]⟩
    · obtain ⟨tok, rest, htr⟩ := ih (c :: cur)
      refine ⟨c :: tok, rest, ?_⟩
      simp only [splitOnCharGo, if_neg hc, htr]
      simp

/-- On a non-blank trimmed line, the first tab-separated token is a
non-empty string. -/
theorem splitTab_head_ne (l : String) (h : jsTrim l ≠ "") :
    ∃ t rest, splitTab (jsTrim l) = t :: rest ∧ t ≠ "" := by
  obtain ⟨c, cs, hdata, hws⟩ := jsTrim_head l h
  have hc : (c = '\t') = False := by
    simp only [eq_iff_iff, iff_false]
    intro hct
    rw [hct] at hws
    simp [jsIsWs] at hws
  obtain ⟨tok, rest, htr⟩ := splitOnCharGo_head '\t' cs [c]
  refine ⟨String.mk (c :: tok), (rest.map String.mk), ?_, ?_⟩
  · unfold splitTab
    rw [hdata]
    simp only [splitOnCharGo, hc, if_false, htr]
    simp
  · intro hemp
    have : (c :: tok) = [] := congrArg String.data hemp
    simp at this

theorem parseFallbackLine_blank (pd : String → Option Int) (now : Int) (l : String)
    (h : jsTrim l = "") : parseFallbackLine pd now l = none := by
  simp [parseFallbackLine, h]

theorem parseFallbackLine_nonblank (pd : String → Option Int) (now : Int) (l : String)
    (h : jsTrim l ≠ "") :
    parseFallbackLine pd now l =
      some ⟨specFallbackPin l, specFallbackTs pd now l, jsTrim l⟩ := by
  unfold parseFallbackLine specFallbackPin specFallbackTs
  rw [if_neg h]
  rcases hp : splitTab (jsTrim l) with _ | ⟨t, ts⟩
  · simp [hp]
  · rcases ts with _ | ⟨t1, ts'⟩
    · by_cases he : t = "" <;> simp [hp, he]
    · rcases hpd : pd (slashesToDashes t1) with _ | v <;>
        by_cases he : t = "" <;> simp [hp, he, hpd]

/-! ## Claim C1 -/

/-- C1 (corrected): for every line whose second token matches one of the
two accepted timestamp patterns and denotes a valid instant, the strict
parser yields exactly one record whose identity is token 0 — but the
timestamp is interpreted as *host-local* wall-clock time (JS `new Date`
on a timezone-less date-time string), rendered as the corresponding UTC
instant string; it equals the claim's UTC reading only when the host
timezone offset `tz` is zero. -/
theorem parseAttlog_match_yields_one (tz : Int) (rawLine pin tsStr : String)
    (rest : List String) (y mo d h mi s : Nat)
    (htok : tokensOf (jsTrim rawLine) = pin :: tsStr :: rest)
    (hm : matchTsStr tsStr = some (y, mo, d, h, mi, s))
    (hv : jsDateTimeValid y mo d h mi s = true) :
    parseAttlogLine tz rawLine =
      some { pin := pin
             ts := toISOString (epochMsOfCivil y mo d h mi s - tz)
             status := optTok rest 0
             verify := optTok rest 1
             workcode := optTok rest 2
             reserved := optTok rest 3
             raw := jsTrim rawLine } := by
  have hne : jsTrim rawLine ≠ "" := by
    intro h0
    rw [h0, tokensOf_blank] at htok
    simp at htok
  unfold parseAttlogLine
  rw [if_neg hne, htok]
  simp [hm, hv]

/-- C1 counterexample: with a host timezone offset of +1 h the example
line renders as `08:15:30Z`, not the claimed `09:15:30.000Z` — the
parse result is not independent of the host timezone. -/
theorem parseAttlog_tz_dependent :
    (parseAttlogText 3600000 "A1001\t2024-03-05 09:15:30").map AttParsedRow.ts
        = ["2024-03-05T08:15:30.000Z"]
    ∧ (parseAttlogText 0 "A1001\t2024-03-05 09:15:30").map AttParsedRow.ts
        = ["2024-03-05T09:15:30.000Z"]
    ∧ ("2024-03-05T08:15:30.000Z" : String) ≠ "2024-03-05T09:15:30.000Z" := by
  refine ⟨by decide, by decide, by decide⟩

/-- C1 witness: the claim's own example, at host timezone offset zero. -/
theorem parseAttlog_match_witness :
    parseAttlogLine 0 "A1001\t2024-03-05 09:15:30" =
      some { pin := "A1001", ts := "2024-03-05T09:15:30.000Z",
             status := none, verify := none, workcode := none, reserved := none,
             raw := "A1001\t2024-03-05 09:15:30" } := by
  have h := parseAttlog_match_yields_one 0 "A1001\t2024-03-05 09:15:30"
    "A1001" "2024-03-05 09:15:30" [] 2024 3 5 9 15 30 (by decide) (by decide) (by decide)
  rw [h]
  decide

/-! ## Claim C5 -/

/-- C5 (confirmed): a blank line, a line with fewer than two tokens
after the tab split and whitespace-run fallback, or a line whose second
token fails both timestamp patterns (or matches but denotes an invalid
instant) is dropped by the strict parser: it yields zero records, never
a defaulted one, and the parser has no error channel. -/
theorem parseAttlog_drops_bad_lines (tz : Int) (rawLine : String)
    (h : jsTrim rawLine = "" ∨
         (tokensOf (jsTrim rawLine)).length < 2 ∨
         ∃ pin tsStr rest, tokensOf (jsTrim rawLine) = pin :: tsStr :: rest ∧
           (matchTsStr tsStr = none ∨
            ∃ y mo d hh mi s, matchTsStr tsStr = some (y, mo, d, hh, mi, s) ∧
              jsDateTimeValid y mo d hh mi s = false)) :
    parseAttlogLine tz rawLine = none := by
  unfold parseAttlogLine
  by_cases hb : jsTrim rawLine = ""
  · rw [if_pos hb]
  · rw [if_neg hb]
    rcases h with h | h | ⟨pin, tsStr, rest, htok, hbad⟩
    · exact absurd h hb
    · rcases htok : tokensOf (jsTrim rawLine) with _ | ⟨a, _ | ⟨b, l⟩⟩
      · rfl
      · rfl
      · rw [htok] at h; simp at h; omega
    · rw [htok]
      rcases hbad with hm | ⟨y, mo, d, hh, mi, s, hm, hv⟩
      · simp [hm]
      · simp [hm, hv]

/-- C5 witness: the spec's example of an unrecognized timestamp format. -/
theorem parseAttlog_drops_witness :
    parseAttlogLine 0 "A1001\t05-03-2024" = none :=
  parseAttlog_drops_bad_lines 0 "A1001\t05-03-2024"
    (Or.inr (Or.inr ⟨"A1001", "05-03-2024", [], by decide, Or.inl (by decide)⟩))

/-! ## Claim C6 -/

/-- C6 (confirmed): the fallback ingestion path never discards a line
with content: every non-blank line yields exactly one punch record, with
identity = token 0 of a tab-only split (sentinel `UNKNOWN` if that token
is absent/empty), timestamp = token 1 parsed best-effort with slashes
normalized to dashes, and the ingestion instant substituted on parse
failure or a missing token. -/
theorem fallback_never_drops (pd : String → Option Int) (now : Int) (text : String) :
    (parseFallbackText pd now text).length
        = ((splitLines text).filter fun l => decide (jsTrim l ≠ "")).length
    ∧ ∀ l : String, jsTrim l ≠ "" →
        parseFallbackLine pd now l =
          some ⟨specFallbackPin l, specFallbackTs pd now l, jsTrim l⟩ := by
  constructor
  · unfold parseFallbackText
    induction splitLines text with
    | nil => rfl
    | cons l ls ih =>
      by_cases hl : jsTrim l = ""
      · rw [List.filterMap_cons, parseFallbackLine_blank pd now l hl]
        simp [List.filter_cons, hl, ih]
      · rw [List.filterMap_cons, parseFallbackLine_nonblank pd now l hl]
        simp only [List.filter_cons, decide_eq_true_eq]
        simp [hl, ih]
  · exact fun l hl => parseFallbackLine_nonblank pd now l hl

/-- C6 witness: a line with an unparseable date token gets the
ingestion instant; a line with only one token likewise. -/
theorem fallback_witness :
    parseFallbackLine (fun _ => none) 77 "X\t2024/01/02" =
      some ⟨"X", 77, "X\t2024/01/02"⟩ := by
  have h := (fallback_never_drops (fun _ => none) 77 "X\t2024/01/02").2
    "X\t2024/01/02" (by decide)
  rw [h]
  decide

/-! ## Claim C10 -/

/-- C10 (amended): in the fallback path every processed line is trimmed
and non-blank, so its first tab-separated token is a non-empty string
and the `UNKNOWN`-defaulting branch is unreachable — the persisted
identity always equals that token.  (It can still be the *literal*
string `"UNKNOWN"` when the line's first token is exactly that, so
"the persisted identity is never UNKNOWN" does not hold.) -/
theorem fallback_default_unreachable (pd : String → Option Int) (now : Int)
    (l : String) (h : jsTrim l ≠ "") :
    ∃ t rest, splitTab (jsTrim l) = t :: rest ∧ t ≠ "" ∧
      (parseFallbackLine pd now l).map FallbackRow.pin = some t := by
  obtain ⟨t, rest, hsp, hne⟩ := splitTab_head_ne l h
  refine ⟨t, rest, hsp, hne, ?_⟩
  have hpt : specFallbackPin l = t := by
    unfold specFallbackPin
    simp [hsp, hne]
  rw [parseFallbackLine_nonblank pd now l h, hpt]
  rfl

/-- C10 counterexample: a line whose first token is the literal string
`UNKNOWN` is persisted with identity `UNKNOWN` (via token 0, not via the
defaulting branch), refuting "the persisted identity is never the
sentinel UNKNOWN". -/
theorem fallback_unknown_identity :
    (parseFallbackLine (fun _ => none) 0 "UNKNOWN\tx").map FallbackRow.pin
      = some "UNKNOWN" := by
  decide

/-! ## Claim C2 -/

theorem mem_sortByTs {p : PunchRow} {l : List PunchRow} :
    p ∈ List.insertionSort punchTsLe l ↔ p ∈ l :=
  (List.perm_insertionSort punchTsLe l).mem_iff

/-- C2 (amended): an aggregation run for `day` queries exactly the
punches whose instant lies, inclusively at both bounds, between the
*host-local* midnight and `23:59:59.999` of the local calendar day
containing the instant `day 00:00Z` (because `new Date(dayStr)` parses
as UTC midnight but `setHours` works in local time); this coincides
with the claimed UTC day range exactly when the host timezone offset
is zero. -/
theorem attendance_query_range (tz : Int) (day : CivilDay) (punches : List PunchRow)
    (p : PunchRow) :
    (p ∈ queriedPunches tz day punches ↔
      p ∈ punches ∧ (dayRange tz day).1 ≤ p.ts ∧ p.ts ≤ (dayRange tz day).2)
    ∧ dayRange 0 day = (dayUtcMs day, dayUtcMs day + 86399999) := by
  constructor
  · unfold queriedPunches
    constructor
    · intro h
      rw [List.mem_flatMap] at h
      obtain ⟨pin, hpin, hp⟩ := h
      unfold queryPinDay at hp
      rw [mem_sortByTs] at hp
      unfold perPinPool at hp
      rw [List.mem_filter] at hp
      obtain ⟨hmem, hcond⟩ := hp
      rw [decide_eq_true_eq] at hcond
      exact ⟨hmem, hcond.2.1, hcond.2.2⟩
    · rintro ⟨hmem, h1, h2⟩
      rw [List.mem_flatMap]
      refine ⟨p.pin, ?_, ?_⟩
      · rw [List.mem_dedup, List.mem_map]
        refine ⟨p, ?_, rfl⟩
        unfold punchesInRange
        rw [List.mem_filter, decide_eq_true_eq]
        exact ⟨hmem, h1, h2⟩
      · unfold queryPinDay
        rw [mem_sortByTs]
        unfold perPinPool
        rw [List.mem_filter, decide_eq_true_eq]
        exact ⟨hmem, rfl, h1, h2⟩
  · have hD : ((86400000 : Int) * daysFromCivil (day.year : Int) day.month day.day
        + 0).fdiv 86400000 = daysFromCivil (day.year : Int) day.month day.day := by
      rw [add_zero, Int.mul_fdiv_cancel_left _ (by norm_num)]
    simp [dayRange, dayUtcMs, hD]

/-- C2 counterexample: with host timezone offset +1 h, a punch at
`2024-03-05T23:30:00Z` — inside the claimed UTC day range for
`2024-03-05` — is *not* queried, while a punch at `2024-03-04T23:30:00Z`
— outside that UTC range — *is*: the queried range depends on the host
timezone. -/
theorem attendance_query_tz_dependent :
    (dayUtcMs ⟨2024, 3, 5⟩ ≤ epochMsOfCivil 2024 3 5 23 30 0
      ∧ epochMsOfCivil 2024 3 5 23 30 0 ≤ dayUtcMs ⟨2024, 3, 5⟩ + 86399999)
    ∧ (⟨"A", epochMsOfCivil 2024 3 5 23 30 0⟩ : PunchRow) ∉
        queriedPunches 3600000 ⟨2024, 3, 5⟩ [⟨"A", epochMsOfCivil 2024 3 5 23 30 0⟩]
    ∧ (⟨"B", epochMsOfCivil 2024 3 4 23 30 0⟩ : PunchRow) ∈
        queriedPunches 3600000 ⟨2024, 3, 5⟩ [⟨"B", epochMsOfCivil 2024 3 4 23 30 0⟩] := by
  refine ⟨by decide, by decide, by decide⟩

/-! ## Claim C3 helper lemmas -/

theorem lastOf_mem : ∀ (l : List PunchRow) (a : PunchRow), lastOf a l ∈ a :: l := by
  intro l
  induction l with
  | nil => intro a; simp [lastOf]
  | cons b bs ih =>
    intro a
    rw [lastOf]
    rcases List.mem_cons.mp (ih b) with h | h
    · simp [h]
    · simp [List.mem_cons.mpr (Or.inr h)]

theorem sorted_head_le {a : PunchRow} {l : List PunchRow}
    (hs : List.Sorted punchTsLe (a :: l)) : ∀ x ∈ a :: l, a.ts ≤ x.ts := by
  intro x hx
  rcases List.mem_cons.mp hx with h | h
  · rw [h]
  · exact (List.sorted_cons.mp hs).1 x h

theorem sorted_le_lastOf : ∀ (l : List PunchRow) (a : PunchRow),
    List.Sorted punchTsLe (a :: l) → ∀ x ∈ a :: l, x.ts ≤ (lastOf a l).ts := by
  intro l
  induction l with
  | nil =>
    intro a _ x hx
    rw [List.mem_singleton.mp hx, lastOf]
  | cons b bs ih =>
    intro a hs x hx
    have hs' : List.Sorted punchTsLe (b :: bs) := (List.sorted_cons.mp hs).2
    rw [lastOf]
    rcases List.mem_cons.mp hx with h | h
    · subst h
      have h1 : x.ts ≤ b.ts := (List.sorted_cons.mp hs).1 b (by simp)
      have h2 : b.ts ≤ (lastOf b bs).ts := ih b hs' b (by simp)
      exact le_trans h1 h2
    · exact ih b hs' x h

theorem attDataForPin_pin {thr : Int} {day : CivilDay} {sorted : List PunchRow}
    {pin : String} {d : AttData}
    (h : attDataForPin thr day sorted pin = some d) : d.pin = pin := by
  cases sorted with
  | nil => simp [attDataForPin] at h
  | cons a l =>
    simp only [attDataForPin] at h
    injection h with h
    rw [← h]

theorem computeLoop_snd (thr : Int) (day : CivilDay) (punches : List PunchRow)
    (s e nw : Int) :
    ∀ (ps : List String) (att : List AttRowStored),
      (computeLoop thr day punches s e nw ps att).2
        = ps.filterMap
            (fun pin => attDataForPin thr day (queryPinDay punches pin s e) pin) := by
  intro ps
  induction ps with
  | nil => intro att; rfl
  | cons pin ps ih =>
    intro att
    cases hf : attDataForPin thr day (queryPinDay punches pin s e) pin with
    | none => simp only [computeLoop, hf, List.filterMap_cons, ih]
    | some d => simp only [computeLoop, hf, List.filterMap_cons, ih]

/-! ## Claim C3 -/

/-- C3 (confirmed): every attendance record computed for an identity
with at least one punch in the day range has `firstTs`/`lastTs` equal to
the earliest/latest punch instant of that identity in the range,
`durationMinutes` equal to the floor of their millisecond difference
divided by 60000 (hence non-negative), and status `PRESENT` when the
duration reaches the present threshold (default 360), else `SHORT` when
strictly positive, else `ABSENT` (duration zero, including the
single-punch case). -/
theorem attendance_duration_status (thr tz nw : Int) (day : CivilDay) (db : DB)
    (d : AttData) (hd : d ∈ (computeAttendanceForDay thr tz nw day db).1) :
    (∃ p ∈ perPinPool db.punches d.pin (dayRange tz day).1 (dayRange tz day).2,
        p.ts = d.firstTs)
    ∧ (∃ p ∈ perPinPool db.punches d.pin (dayRange tz day).1 (dayRange tz day).2,
        p.ts = d.lastTs)
    ∧ (∀ p ∈ perPinPool db.punches d.pin (dayRange tz day).1 (dayRange tz day).2,
        d.firstTs ≤ p.ts ∧ p.ts ≤ d.lastTs)
    ∧ 0 ≤ d.durationMinutes
    ∧ d.durationMinutes = (d.lastTs - d.firstTs).fdiv 60000
    ∧ d.status = (if thr ≤ d.durationMinutes then "PRESENT"
        else if 0 < d.durationMinutes then "SHORT" else "ABSENT") := by
  simp only [computeAttendanceForDay] at hd
  rw [computeLoop_snd, List.mem_filterMap] at hd
  obtain ⟨pin, hpin, hf⟩ := hd
  rcases hq : queryPinDay db.punches pin (dayRange tz day).1 (dayRange tz day).2
    with _ | ⟨first, rest⟩
  · rw [hq] at hf
    simp [attDataForPin] at hf
  · rw [hq] at hf
    simp only [attDataForPin] at hf
    injection hf with hf
    have hs : List.Sorted punchTsLe (first :: rest) := by
      rw [← hq]
      exact List.sorted_insertionSort punchTsLe _
    have hmem : ∀ q : PunchRow,
        q ∈ perPinPool db.punches pin (dayRange tz day).1 (dayRange tz day).2
          ↔ q ∈ first :: rest := by
      intro q
      rw [← hq]
      exact mem_sortByTs.symm
    have hdpin : d.pin = pin := by rw [← hf]
    subst hf
    refine ⟨⟨first, ?_, rfl⟩, ⟨lastOf first rest, ?_, rfl⟩, ?_, ?_, rfl, rfl⟩
    · rw [hdpin, hmem first]
      simp
    · rw [hdpin, hmem (lastOf first rest)]
      exact lastOf_mem rest first
    · intro p hp
      rw [hdpin, hmem p] at hp
      exact ⟨sorted_head_le hs p hp, sorted_le_lastOf rest first hs p hp⟩
    · have h1 : first.ts ≤ (lastOf first rest).ts :=
        sorted_le_lastOf rest first hs first (by simp)
      exact Int.fdiv_nonneg (by omega) (by norm_num)

/-- C3 witness: two punches six hours apart yield `durationMinutes` 360
(the floored millisecond difference over 60000). -/
theorem attendance_duration_status_witness :
    (⟨"A", ⟨2024, 3, 5⟩, epochMsOfCivil 2024 3 5 9 0 0, epochMsOfCivil 2024 3 5 15 0 0,
        360, "PRESENT"⟩ : AttData).durationMinutes
      = ((epochMsOfCivil 2024 3 5 15 0 0 : Int) - epochMsOfCivil 2024 3 5 9 0 0).fdiv
          60000 :=
  (attendance_duration_status 360 0 0 ⟨2024, 3, 5⟩
    ⟨[⟨"A", epochMsOfCivil 2024 3 5 9 0 0⟩, ⟨"A", epochMsOfCivil 2024 3 5 15 0 0⟩], []⟩
    ⟨"A", ⟨2024, 3, 5⟩, epochMsOfCivil 2024 3 5 9 0 0, epochMsOfCivil 2024 3 5 15 0 0,
      360, "PRESENT"⟩ (by decide)).2.2.2.2.1

/-! ## Claim C4 helper lemmas -/

/-- All rows under `d`'s key carry exactly `d`'s derived fields (and at
least one such row exists). -/
def allKeyed (d : AttData) (nw : Int) (att : List AttRowStored) : Prop :=
  (∃ r ∈ att, r.pin = d.pin ∧ r.day = d.day) ∧
    ∀ r ∈ att, r.pin = d.pin ∧ r.day = d.day → r = mkAttRow d nw

theorem upd_of_key (d : AttData) (nw : Int) (r : AttRowStored)
    (hk : r.pin = d.pin ∧ r.day = d.day) :
    (if r.pin = d.pin ∧ r.day = d.day then
       { r with firstTs := d.firstTs, lastTs := d.lastTs,
                durationMinutes := d.durationMinutes, status := d.status,
                updatedAt := nw }
     else r) = mkAttRow d nw := by
  rw [if_pos hk]
  obtain ⟨h1, h2⟩ := hk
  cases r
  simp only [mkAttRow]
  simp_all

theorem upsert_allKeyed (d : AttData) (nw : Int) (att : List AttRowStored) :
    allKeyed d nw (upsertAtt d nw att) := by
  unfold upsertAtt
  by_cases hany : att.any (fun r => decide (r.pin = d.pin ∧ r.day = d.day))
  · rw [if_pos hany]
    obtain ⟨r0, hr0, hk0⟩ := List.any_eq_true.mp hany
    rw [decide_eq_true_eq] at hk0
    constructor
    · refine ⟨mkAttRow d nw, List.mem_map.mpr ⟨r0, hr0, upd_of_key d nw r0 hk0⟩, ?_⟩
      exact ⟨rfl, rfl⟩
    · intro r' hr' hk'
      obtain ⟨r, hr, hfr⟩ := List.mem_map.mp hr'
      by_cases hk : r.pin = d.pin ∧ r.day = d.day
      · rw [← hfr]
        exact upd_of_key d nw r hk
      · rw [← hfr] at hk'
        rw [if_neg hk] at hk'
        exact absurd hk' hk
  · rw [if_neg hany]
    have hno : ∀ r ∈ att, ¬(r.pin = d.pin ∧ r.day = d.day) := by
      intro r hr hk
      exact hany (List.any_eq_true.mpr ⟨r, hr, decide_eq_true hk⟩)
    constructor
    · exact ⟨mkAttRow d nw, List.mem_append_right _ (by simp), rfl, rfl⟩
    · intro r' hr' hk'
      rcases List.mem_append.mp hr' with h | h
      · exact absurd hk' (hno r' h)
      · exact List.mem_singleton.mp h

theorem upsert_allKeyed_other (d d' : AttData) (nw : Int) (att : List AttRowStored)
    (hne : d'.pin ≠ d.pin) (h : allKeyed d' nw att) :
    allKeyed d' nw (upsertAtt d nw att) := by
  obtain ⟨⟨r0, hr0, hk0⟩, hall⟩ := h
  unfold upsertAtt
  by_cases hany : att.any (fun r => decide (r.pin = d.pin ∧ r.day = d.day))
  · rw [if_pos hany]
    constructor
    · refine ⟨r0, List.mem_map.mpr ⟨r0, hr0, ?_⟩, hk0⟩
      rw [if_neg]
      rintro ⟨hp, _⟩
      exact hne (by rw [← hk0.1]; exact hp)
    · intro r' hr' hk'
      obtain ⟨r, hr, hfr⟩ := List.mem_map.mp hr'
      by_cases hk : r.pin = d.pin ∧ r.day = d.day
      · rw [upd_of_key d nw r hk] at hfr
        rw [← hfr] at hk'
        exact absurd (by rw [← hk'.1]; rfl) hne
      · rw [if_neg hk] at hfr
        rw [← hfr] at hk' ⊢
        exact hall r hr hk'
  · rw [if_neg hany]
    constructor
    · exact ⟨r0, List.mem_append_left _ hr0, hk0⟩
    · intro r' hr' hk'
      rcases List.mem_append.mp hr' with h | h
      · exact hall r' h hk'
      · rw [List.mem_singleton] at h
        subst h
        exact absurd (by rw [← hk'.1]; rfl) hne

theorem upsert_same (d : AttData) (nw : Int) (att : List AttRowStored)
    (h : allKeyed d nw att) : upsertAtt d nw att = att := by
  obtain ⟨⟨r0, hr0, hk0⟩, hall⟩ := h
  unfold upsertAtt
  rw [if_pos (List.any_eq_true.mpr ⟨r0, hr0, decide_eq_true hk0⟩)]
  have hcongr : ∀ r ∈ att,
      (if r.pin = d.pin ∧ r.day = d.day then
        { r with firstTs := d.firstTs, lastTs := d.lastTs,
                 durationMinutes := d.durationMinutes, status := d.status,
                 updatedAt := nw }
       else r) = id r := by
    intro r hr
    by_cases hk : r.pin = d.pin ∧ r.day = d.day
    · rw [upd_of_key d nw r hk, id]
      exact (hall r hr hk).symm
    · rw [if_neg hk, id]
  rw [List.map_congr_left hcongr, List.map_id]

theorem upsert_keys_nodup (d : AttData) (nw : Int) (att : List AttRowStored)
    (h : attKeysNodup att) : attKeysNodup (upsertAtt d nw att) := by
  unfold upsertAtt attKeysNodup
  by_cases hany : att.any (fun r => decide (r.pin = d.pin ∧ r.day = d.day))
  · rw [if_pos hany, List.map_map]
    have hfun : ((fun r : AttRowStored => (r.pin, r.day)) ∘
        (fun r => if r.pin = d.pin ∧ r.day = d.day then
          { r with firstTs := d.firstTs, lastTs := d.lastTs,
                   durationMinutes := d.durationMinutes, status := d.status,
                   updatedAt := nw }
         else r)) = fun r : AttRowStored => (r.pin, r.day) := by
      funext r
      by_cases hk : r.pin = d.pin ∧ r.day = d.day <;> simp [Function.comp, hk]
    rw [hfun]
    exact h
  · rw [if_neg hany, List.map_append]
    rw [List.nodup_append]
    refine ⟨h, by simp, ?_⟩
    intro k hk hk'
    simp only [List.map_cons, List.map_nil, List.mem_singleton, mkAttRow] at hk'
    obtain ⟨r, hr, hkey⟩ := List.mem_map.mp hk
    apply hany
    apply List.any_eq_true.mpr
    refine ⟨r, hr, decide_eq_true ?_⟩
    rw [hk'] at hkey
    exact ⟨congrArg Prod.fst hkey, congrArg Prod.snd hkey⟩

theorem computeLoop_pres (thr : Int) (day : CivilDay) (punches : List PunchRow)
    (s e nw : Int) (d' : AttData) :
    ∀ (ps : List String) (att : List AttRowStored),
      allKeyed d' nw att → d'.pin ∉ ps →
      allKeyed d' nw (computeLoop thr day punches s e nw ps att).1 := by
  intro ps
  induction ps with
  | nil => intro att h _; exact h
  | cons pin ps ih =>
    intro att h hnot
    rw [List.mem_cons, not_or] at hnot
    obtain ⟨hne, hnot'⟩ := hnot
    cases hf : attDataForPin thr day (queryPinDay punches pin s e) pin with
    | none =>
      simp only [computeLoop, hf]
      exact ih att h hnot'
    | some dq =>
      simp only [computeLoop, hf]
      exact ih _ (upsert_allKeyed_other dq d' nw att
        (by rw [attDataForPin_pin hf]; exact hne) h) hnot'

theorem computeLoop_est (thr : Int) (day : CivilDay) (punches : List PunchRow)
    (s e nw : Int) :
    ∀ (ps : List String) (att : List AttRowStored) (pin : String) (d : AttData),
      ps.Nodup → pin ∈ ps →
      attDataForPin thr day (queryPinDay punches pin s e) pin = some d →
      allKeyed d nw (computeLoop thr day punches s e nw ps att).1 := by
  intro ps
  induction ps with
  | nil => intro att pin d _ hmem; simp at hmem
  | cons q ps ih =>
    intro att pin d hnd hmem hf
    obtain ⟨hq_not, hnd'⟩ := List.nodup_cons.mp hnd
    rcases List.mem_cons.mp hmem with heq | hmem'
    · subst heq
      simp only [computeLoop, hf]
      exact computeLoop_pres thr day punches s e nw d ps _
        (upsert_allKeyed d nw att) (by rw [attDataForPin_pin hf]; exact hq_not)
    · cases hfq : attDataForPin thr day (queryPinDay punches q s e) q with
      | none =>
        simp only [computeLoop, hfq]
        exact ih att pin d hnd' hmem' hf
      | some dq =>
        simp only [computeLoop, hfq]
        exact ih _ pin d hnd' hmem' hf

theorem computeLoop_stable (thr : Int) (day : CivilDay) (punches : List PunchRow)
    (s e nw : Int) :
    ∀ (ps : List String) (att : List AttRowStored),
      (∀ pin ∈ ps, ∀ d,
        attDataForPin thr day (queryPinDay punches pin s e) pin = some d →
        allKeyed d nw att) →
      computeLoop thr day punches s e nw ps att
        = (att, ps.filterMap
            (fun pin => attDataForPin thr day (queryPinDay punches pin s e) pin)) := by
  intro ps
  induction ps with
  | nil => intro att _; rfl
  | cons pin ps ih =>
    intro att h
    cases hf : attDataForPin thr day (queryPinDay punches pin s e) pin with
    | none =>
      simp only [computeLoop, hf, List.filterMap_cons]
      exact ih att (fun p hp => h p (List.mem_cons_of_mem _ hp))
    | some d =>
      have hup : upsertAtt d nw att = att :=
        upsert_same d nw att (h pin (List.mem_cons_self _ _) d hf)
      simp only [computeLoop, hf, hup, List.filterMap_cons]
      rw [ih att (fun p hp => h p (List.mem_cons_of_mem _ hp))]

theorem computeLoop_keys_nodup (thr : Int) (day : CivilDay) (punches : List PunchRow)
    (s e nw : Int) :
    ∀ (ps : List String) (att : List AttRowStored), attKeysNodup att →
      attKeysNodup (computeLoop thr day punches s e nw ps att).1 := by
  intro ps
  induction ps with
  | nil => intro att h; exact h
  | cons pin ps ih =>
    intro att h
    cases hf : attDataForPin thr day (queryPinDay punches pin s e) pin with
    | none =>
      simp only [computeLoop, hf]
      exact ih att h
    | some d =>
      simp only [computeLoop, hf]
      exact ih _ (upsert_keys_nodup d nw att h)

/-! ## Claim C4 -/

/-- C4 (confirmed): for a fixed punch set, recomputing a day yields the
same result list every time; the attendance table keeps at most one row
per `(identity, day)` key (a recomputation overwrites the existing row's
derived fields in place instead of inserting a second row), and — with
the same bookkeeping timestamp — the stored state itself is a fixed
point of recomputation. -/
theorem attendance_idempotent (thr tz nw nw2 : Int) (day : CivilDay) (db : DB)
    (hkeys : attKeysNodup db.attendance) :
    ((computeAttendanceForDay thr tz nw2 day
        (computeAttendanceForDay thr tz nw day db).2).1
      = (computeAttendanceForDay thr tz nw day db).1)
    ∧ attKeysNodup (computeAttendanceForDay thr tz nw day db).2.attendance
    ∧ (computeAttendanceForDay thr tz nw day db).2.punches = db.punches
    ∧ (nw2 = nw →
        (computeAttendanceForDay thr tz nw2 day
            (computeAttendanceForDay thr tz nw day db).2).2
          = (computeAttendanceForDay thr tz nw day db).2) := by
  refine ⟨?_, ?_, rfl, ?_⟩
  · simp only [computeAttendanceForDay]
    rw [computeLoop_snd, computeLoop_snd]
  · simp only [computeAttendanceForDay]
    exact computeLoop_keys_nodup thr day db.punches _ _ nw _ db.attendance hkeys
  · intro hnw
    subst hnw
    simp only [computeAttendanceForDay]
    rw [computeLoop_stable thr day db.punches _ _ nw2 _ _ ?stable]
    case stable =>
      intro pin hpin d hf
      exact computeLoop_est thr day db.punches _ _ nw2 _ db.attendance pin d
        (List.nodup_dedup _) hpin hf

/-- C4 witness: a concrete recomputation returns the same result list
as the first run. -/
theorem attendance_idempotent_witness :
    (computeAttendanceForDay 360 0 5 ⟨2024, 3, 5⟩
        (computeAttendanceForDay 360 0 5 ⟨2024, 3, 5⟩
          ⟨[⟨"A", epochMsOfCivil 2024 3 5 9 0 0⟩], []⟩).2).1
      = (computeAttendanceForDay 360 0 5 ⟨2024, 3, 5⟩
          ⟨[⟨"A", epochMsOfCivil 2024 3 5 9 0 0⟩], []⟩).1 :=
  (attendance_idempotent 360 0 5 5 ⟨2024, 3, 5⟩
    ⟨[⟨"A", epochMsOfCivil 2024 3 5 9 0 0⟩], []⟩ (by simp [attKeysNodup])).1

theorem sweepEntry_flip_iff (now : Int) (info : DeviceInfo) :
    (sweepEntry now info).2 = true ↔
      info.status = "ONLINE" ∧ ∃ hb, info.lastHeartbeat = some hb ∧ now - hb > 30000 := by
  obtain ⟨st, ls, lh⟩ := info
  rcases lh with _ | hb
  · simp [sweepEntry]
  · constructor
    · intro h
      simp only [sweepEntry] at h
      by_cases hc : now - hb > 30000 ∧ st = "ONLINE"
      · exact ⟨hc.2, hb, rfl, hc.1⟩
      · rw [if_neg hc] at h
        simp at h
    · rintro ⟨hon, hb', hhb, hgt⟩
      injection hhb with hhb
      subst hhb
      simp only [sweepEntry]
      rw [if_pos ⟨hgt, hon⟩]

theorem sweepEntry_flip_val (now : Int) (info : DeviceInfo)
    (h : (sweepEntry now info).2 = true) :
    (sweepEntry now info).1 = { info with status := "OFFLINE" } := by
  obtain ⟨st, ls, lh⟩ := info
  rcases lh with _ | hb
  · simp [sweepEntry] at h
  · by_cases hc : now - hb > 30000 ∧ st = "ONLINE"
    · simp [sweepEntry, hc]
    · simp [sweepEntry, hc] at h

theorem sweepEntry_noflip_val (now : Int) (info : DeviceInfo)
    (h : (sweepEntry now info).2 = false) :
    (sweepEntry now info).1 = info := by
  obtain ⟨st, ls, lh⟩ := info
  rcases lh with _ | hb
  · simp [sweepEntry]
  · by_cases hc : now - hb > 30000 ∧ st = "ONLINE"
    · simp [sweepEntry, hc] at h
    · simp [sweepEntry, hc]

theorem sweepEntry_online_back (now : Int) (info : DeviceInfo)
    (h : (sweepEntry now info).1.status = "ONLINE") : info.status = "ONLINE" := by
  obtain ⟨st, ls, lh⟩ := info
  rcases lh with _ | hb
  · simpa [sweepEntry] using h
  · by_cases hc : now - hb > 30000 ∧ st = "ONLINE"
    · simp [sweepEntry, hc] at h
    · simpa [sweepEntry, hc] using h

theorem sweep_keys (now : Int) (cache : List (String × DeviceInfo)) :
    (deviceMonitorSweep now cache).1.map Prod.fst = cache.map Prod.fst := by
  induction cache with
  | nil => rfl
  | cons e rest ih =>
    obtain ⟨k, v⟩ := e
    simp [deviceMonitorSweep, ih]

theorem sweep_lookup (now : Int) (cache : List (String × DeviceInfo)) (sn : String)
    (info : DeviceInfo) (h : cacheGet sn cache = some info) :
    cacheGet sn (deviceMonitorSweep now cache).1 = some (sweepEntry now info).1 := by
  induction cache with
  | nil => simp [cacheGet] at h
  | cons e rest ih =>
    obtain ⟨k, v⟩ := e
    by_cases hk : k = sn
    · rw [cacheGet, if_pos hk] at h
      injection h with h
      subst h
      simp [deviceMonitorSweep, cacheGet, hk]
    · rw [cacheGet, if_neg hk] at h
      simp only [deviceMonitorSweep, cacheGet, if_neg hk]
      exact ih h

theorem sweep_lookup_rev (now : Int) (cache : List (String × DeviceInfo)) (sn : String)
    (info' : DeviceInfo)
    (h : cacheGet sn (deviceMonitorSweep now cache).1 = some info') :
    ∃ info, cacheGet sn cache = some info ∧ info' = (sweepEntry now info).1 := by
  induction cache with
  | nil => simp [deviceMonitorSweep, cacheGet] at h
  | cons e rest ih =>
    obtain ⟨k, v⟩ := e
    by_cases hk : k = sn
    · rw [deviceMonitorSweep] at h
      simp only [cacheGet, if_pos hk] at h
      injection h with h
      exact ⟨v, by simp [cacheGet, hk], h.symm⟩
    · rw [deviceMonitorSweep] at h
      simp only [cacheGet, if_neg hk] at h
      obtain ⟨info, h1, h2⟩ := ih h
      exact ⟨info, by simp [cacheGet, hk, h1], h2⟩

theorem sweep_writes_sub (now : Int) (cache : List (String × DeviceInfo)) (sn : String)
    (h : sn ∈ (deviceMonitorSweep now cache).2) : sn ∈ cache.map Prod.fst := by
  induction cache with
  | nil => simp [deviceMonitorSweep] at h
  | cons e rest ih =>
    obtain ⟨k, v⟩ := e
    rw [deviceMonitorSweep] at h
    by_cases hf : (sweepEntry now v).2
    · rw [if_pos hf] at h
      rcases List.mem_cons.mp h with h | h
      · simp [h]
      · simp [ih h]
    · rw [if_neg hf] at h
      simp [ih h]

theorem sweep_writes_iff (now : Int) (cache : List (String × DeviceInfo))
    (hnd : (cache.map Prod.fst).Nodup) (sn : String) :
    sn ∈ (deviceMonitorSweep now cache).2 ↔
      ∃ info, cacheGet sn cache = some info ∧ (sweepEntry now info).2 = true := by
  induction cache with
  | nil => simp [deviceMonitorSweep, cacheGet]
  | cons e rest ih =>
    obtain ⟨k, v⟩ := e
    simp only [List.map_cons, List.nodup_cons] at hnd
    obtain ⟨hk_not, hnd'⟩ := hnd
    by_cases hk : k = sn
    · subst hk
      rw [deviceMonitorSweep]
      constructor
      · intro h
        by_cases hf : (sweepEntry now v).2
        · exact ⟨v, by simp [cacheGet], hf⟩
        · rw [if_neg hf] at h
          exact absurd (sweep_writes_sub now rest k h) hk_not
      · rintro ⟨info, hinfo, hflip⟩
        rw [cacheGet, if_pos rfl] at hinfo
        injection hinfo with hinfo
        subst hinfo
        rw [if_pos hflip]
        exact List.mem_cons_self _ _
    · rw [deviceMonitorSweep]
      have hmem : sn ∈ (if (sweepEntry now v).2 then k :: (deviceMonitorSweep now rest).2
          else (deviceMonitorSweep now rest).2) ↔ sn ∈ (deviceMonitorSweep now rest).2 := by
        by_cases hf : (sweepEntry now v).2
        · rw [if_pos hf, List.mem_cons]
          exact or_iff_right (fun hsk => hk hsk.symm)
        · rw [if_neg hf]
      rw [hmem, ih hnd']
      simp [cacheGet, hk]

theorem sweep_writes_nodup (now : Int) (cache : List (String × DeviceInfo))
    (hnd : (cache.map Prod.fst).Nodup) : (deviceMonitorSweep now cache).2.Nodup := by
  induction cache with
  | nil => simp [deviceMonitorSweep]
  | cons e rest ih =>
    obtain ⟨k, v⟩ := e
    simp only [List.map_cons, List.nodup_cons] at hnd
    obtain ⟨hk_not, hnd'⟩ := hnd
    rw [deviceMonitorSweep]
    by_cases hf : (sweepEntry now v).2
    · rw [if_pos hf]
      exact List.Nodup.cons (fun h => hk_not (sweep_writes_sub now rest k h)) (ih hnd')
    · rw [if_neg hf]
      exact ih hnd'

/-! ## Claim C7 -/

/-- C7 (confirmed): one sweep run flips to `OFFLINE` exactly the cache
entries with cached status `ONLINE` whose heartbeat is strictly more
than 30000 ms old, batching exactly one `OFFLINE` persistence write per
such serial number; all other entries are left untouched; the sweep
never removes a cache entry and never transitions any entry to
`ONLINE`. -/
theorem sweep_behaviour (now : Int) (cache : List (String × DeviceInfo))
    (hnd : (cache.map Prod.fst).Nodup) :
    (∀ sn, sn ∈ (deviceMonitorSweep now cache).2 ↔
        ∃ info hb, cacheGet sn cache = some info ∧ info.status = "ONLINE" ∧
          info.lastHeartbeat = some hb ∧ now - hb > 30000)
    ∧ (deviceMonitorSweep now cache).2.Nodup
    ∧ (deviceMonitorSweep now cache).1.map Prod.fst = cache.map Prod.fst
    ∧ (∀ sn info, cacheGet sn cache = some info → (sweepEntry now info).2 = true →
        cacheGet sn (deviceMonitorSweep now cache).1
          = some { info with status := "OFFLINE" })
    ∧ (∀ sn info, cacheGet sn cache = some info → (sweepEntry now info).2 = false →
        cacheGet sn (deviceMonitorSweep now cache).1 = some info)
    ∧ (∀ sn info', cacheGet sn (deviceMonitorSweep now cache).1 = some info' →
        info'.status = "ONLINE" →
        ∃ info, cacheGet sn cache = some info ∧ info.status = "ONLINE") := by
  refine ⟨?_, sweep_writes_nodup now cache hnd, sweep_keys now cache, ?_, ?_, ?_⟩
  · intro sn
    rw [sweep_writes_iff now cache hnd sn]
    constructor
    · rintro ⟨info, h1, h2⟩
      obtain ⟨hon, hb, hhb, hgt⟩ := (sweepEntry_flip_iff now info).mp h2
      exact ⟨info, hb, h1, hon, hhb, hgt⟩
    · rintro ⟨info, hb, h1, hon, hhb, hgt⟩
      exact ⟨info, h1, (sweepEntry_flip_iff now info).mpr ⟨hon, hb, hhb, hgt⟩⟩
  · intro sn info h1 h2
    rw [sweep_lookup now cache sn info h1, sweepEntry_flip_val now info h2]
  · intro sn info h1 h2
    rw [sweep_lookup now cache sn info h1, sweepEntry_noflip_val now info h2]
  · intro sn info' h1 h2
    obtain ⟨info, hst, hval⟩ := sweep_lookup_rev now cache sn info' h1
    exact ⟨info, hst, sweepEntry_online_back now info (hval ▸ h2)⟩

/-- C7 counterexample-free witness: a stale `ONLINE` entry is batched
for an `OFFLINE` write. -/
theorem sweep_behaviour_witness :
    "S1" ∈ (deviceMonitorSweep 40000 [("S1", ⟨"ONLINE", some 0, some 0⟩)]).2 :=
  ((sweep_behaviour 40000 [("S1", ⟨"ONLINE", some 0, some 0⟩)] (by decide)).1 "S1").mpr
    ⟨⟨"ONLINE", some 0, some 0⟩, 0, rfl, rfl, rfl, by decide⟩

/-! ## Claim C8 -/

/-- C8 (amended): for every request that carries a non-empty serial
number, the heartbeat handler answers `200 OK` regardless of internal
errors (a thrown lookup, a failed awaited insert/update); but a request
without a serial number — or with an empty one — is answered with HTTP
status 400 (body `OK`), which is not a success status. -/
theorem heartbeat_always_ok (sn : String) (now : Int) (db : HbDb)
    (cache : List (String × DeviceInfo)) (h : sn ≠ "") :
    (getrequestHandler (some sn) now db cache).1 = ⟨200, "OK"⟩ := by
  simp only [getrequestHandler]
  rw [if_neg h]
  cases hcg : cacheGet sn cache with
  | some info => rfl
  | none =>
    cases hf : db.find with
    | error e => rfl
    | ok f =>
      cases f with
      | none => cases hi : db.insertOk <;> simp [hi]
      | some r => cases hu : db.updateOk <;> simp [hu]

/-- C8 counterexample: a request with no `SN` query parameter (or an
empty one) is answered with HTTP 400, so the handler does not report
success "regardless of the request's contents". -/
theorem heartbeat_no_serial_400 :
    (getrequestHandler none 0 ⟨Except.ok none, true, true⟩ []).1 = ⟨400, "OK"⟩
    ∧ (getrequestHandler (some "") 0 ⟨Except.ok none, true, true⟩ []).1 = ⟨400, "OK"⟩
    ∧ (400 : Nat) ≠ 200 := by
  refine ⟨rfl, by decide, by decide⟩

/-- C8 witness: even with every awaited persistence call failing, a
heartbeat with a serial number gets `200 OK`. -/
theorem heartbeat_always_ok_witness :
    (getrequestHandler (some "SN123") 5 ⟨Except.error (), false, false⟩ []).1
      = ⟨200, "OK"⟩ :=
  heartbeat_always_ok "SN123" 5 ⟨Except.error (), false, false⟩ [] (by decide)

/-! ## Claim C9 helper lemmas -/

theorem hbCached_lastSeen_write_iff (sn : String) (now : Int) (i : DeviceInfo) :
    ((onHeartbeatCached sn now i).2.any isLastSeenWrite = true ↔
      (i.lastSeen = none ∨ ∃ s, i.lastSeen = some s ∧ now - s > 10000))
    ∧ ((i.lastSeen = none ∨ ∃ s, i.lastSeen = some s ∧ now - s > 10000) →
        (onHeartbeatCached sn now i).1.lastSeen = some now) := by
  obtain ⟨st, ls, lh⟩ := i
  rcases ls with _ | s
  · by_cases hst : st = "OFFLINE" <;> simp [onHeartbeatCached, hst, isLastSeenWrite]
  · by_cases hst : st = "OFFLINE" <;> by_cases hgt : now - s > 10000 <;>
      simp [onHeartbeatCached, hst, hgt, isLastSeenWrite]

theorem runHeartbeats_no_writes (sn : String) (times : List Int) (st : Int) :
    ∀ (lh : Option Int), (∀ t ∈ times, t - st ≤ 10000) →
      ((runHeartbeats sn times ⟨"ONLINE", some st, lh⟩).2.filter touchesLastSeen).length
        = 0 := by
  induction times with
  | nil => intro lh _; rfl
  | cons t ts ih =>
    intro lh hall
    have hc : ¬ (t - st > 10000) := by
      have := hall t (by simp)
      omega
    have h1 : onHeartbeatCached sn t ⟨"ONLINE", some st, lh⟩
        = (⟨"ONLINE", some st, some t⟩, []) := by
      simp [onHeartbeatCached, hc]
    simp only [runHeartbeats, h1]
    simpa using ih (some t) (fun t' ht' => hall t' (by simp [ht']))

theorem runHeartbeats_amortized (sn : String) (t0 : Int) :
    ∀ (times : List Int) (info : DeviceInfo), info.status = "ONLINE" →
      (∀ t ∈ times, t0 ≤ t ∧ t ≤ t0 + 2000) →
      ((runHeartbeats sn times info).2.filter touchesLastSeen).length ≤ 1 := by
  intro times
  induction times with
  | nil => intro info _ _; simp [runHeartbeats]
  | cons t ts ih =>
    intro info hon hw
    obtain ⟨st, ls, lh⟩ := info
    simp only at hon
    subst hon
    have hbound : ∀ t' ∈ ts, t' - t ≤ 10000 := by
      intro t' ht'
      have h1 := hw t' (by simp [ht'])
      have h2 := hw t (by simp)
      omega
    rcases ls with _ | s
    · have h1 : onHeartbeatCached sn t ⟨"ONLINE", none, lh⟩
          = (⟨"ONLINE", some t, some t⟩, [DevWrite.updateLastSeen sn t]) := by
        simp [onHeartbeatCached]
      have hz := runHeartbeats_no_writes sn ts t (some t) hbound
      simp only [runHeartbeats, h1]
      rw [List.filter_append, List.length_append, hz]
      simp [touchesLastSeen]
    · by_cases hgt : t - s > 10000
      · have h1 : onHeartbeatCached sn t ⟨"ONLINE", some s, lh⟩
            = (⟨"ONLINE", some t, some t⟩, [DevWrite.updateLastSeen sn t]) := by
          simp [onHeartbeatCached, hgt]
        have hz := runHeartbeats_no_writes sn ts t (some t) hbound
        simp only [runHeartbeats, h1]
        rw [List.filter_append, List.length_append, hz]
        simp [touchesLastSeen]
      · have h1 : onHeartbeatCached sn t ⟨"ONLINE", some s, lh⟩
            = (⟨"ONLINE", some s, some t⟩, []) := by
          simp [onHeartbeatCached, hgt]
        simp only [runHeartbeats, h1]
        simpa using ih ⟨"ONLINE", some s, some t⟩ rfl
          (fun t' ht' => hw t' (by simp [ht']))

/-! ## Claim C9 -/

/-- C9 (confirmed): for a cached device, a heartbeat issues the
`lastSeen`-only persistence write iff the cached `lastSeen` is unset or
more than 10000 ms older than `now` (refreshing the cached `lastSeen`
to `now` in that case); consequently any number of heartbeats inside a
2-second window for an already-`ONLINE` device touch the stored
`last_seen` with at most one write. -/
theorem heartbeat_lastSeen_debounce (sn : String) (times : List Int) (t0 : Int)
    (info : DeviceInfo) (hon : info.status = "ONLINE")
    (hw : ∀ t ∈ times, t0 ≤ t ∧ t ≤ t0 + 2000) :
    (∀ (now : Int) (i : DeviceInfo),
        ((onHeartbeatCached sn now i).2.any isLastSeenWrite = true ↔
          (i.lastSeen = none ∨ ∃ s, i.lastSeen = some s ∧ now - s > 10000))
        ∧ ((i.lastSeen = none ∨ ∃ s, i.lastSeen = some s ∧ now - s > 10000) →
            (onHeartbeatCached sn now i).1.lastSeen = some now))
    ∧ ((runHeartbeats sn times info).2.filter touchesLastSeen).length ≤ 1 :=
  ⟨fun now i => hbCached_lastSeen_write_iff sn now i,
   runHeartbeats_amortized sn t0 times info hon hw⟩

/-- C9 witness: ten heartbeats within two seconds for an `ONLINE`
device whose `lastSeen` is stale produce at most one `last_seen`
write. -/
theorem heartbeat_lastSeen_debounce_witness :
    ((runHeartbeats "S" [0, 500, 1000, 1500, 2000, 100, 200, 300, 400, 600]
        ⟨"ONLINE", some (-11000), some 0⟩).2.filter touchesLastSeen).length ≤ 1 :=
  (heartbeat_lastSeen_debounce "S" [0, 500, 1000, 1500, 2000, 100, 200, 300, 400, 600]
    0 ⟨"ONLINE", some (-11000), some 0⟩ rfl (by decide)).2

/-- C10 witness: concrete non-blank line, identity equals its first
token. -/
theorem fallback_default_witness :
    (parseFallbackLine (fun _ => none) 5 "X\tab").map FallbackRow.pin = some "X" := by
  obtain ⟨t, rest, hsp, hne, hpin⟩ :=
    fallback_default_unreachable (fun _ => none) 5 "X\tab" (by decide)
  have ht : splitTab (jsTrim "X\tab") = ["X", "ab"] := by decide
  rw [ht] at hsp
  injection hsp with h1 h2
  rw [h1]
  exact hpin

end Adms
